import Mathlib

/-!
Verification development for the static-source-metrics and call-graph
extraction engine of the SW_metrics repository.

The Python sources (`assignment_1.py` and `Module 6/analyze_static.py`) are
shallowly embedded below: each Python function is translated to a Lean
function over `String` / `List Char`, with regular-expression matching
replaced by equivalent deterministic maximal-munch scanners (the character
classes involved are disjoint, so the regex engine's backtracking can never
produce a match that maximal munch misses; this is noted at each scanner).
File contents are modelled as the text of the file; file iteration
(`for line in f`) is modelled by the list of the file's lines.
-/

/-! ## Character classes (ASCII fragment of Python's `\w` and `\s`) -/

/-- Python regex `\w` (ASCII range): letters, digits, underscore. -/
def isWordChar (c : Char) : Bool :=
  c.isAlpha || c.isDigit || c = '_'

/-- Python regex `\s` / `str.strip` whitespace (ASCII range). -/
def isPySpace (c : Char) : Bool :=
  c = ' ' || c = '\t' || c = '\n' || c = '\r' || c = '\x0b' || c = '\x0c'

/-- Python `str.strip()`: drop whitespace from both ends. -/
def pstrip (l : List Char) : List Char :=
  ((l.dropWhile isPySpace).reverse.dropWhile isPySpace).reverse

/-! ## `count_physical_loc_file` (assignment_1.py)

`for _ in f: loc += 1` iterates over the lines of the file: one line per
newline character, plus one final partial line when the file does not end
with a newline.  `pyLineCountAux` walks the characters carrying a flag that
records whether the current (last) line has received any character. -/

def pyLineCountAux : List Char → Bool → Nat
  | [], pending => if pending then 1 else 0
  | c :: rest, _ => if c = '\n' then 1 + pyLineCountAux rest false else pyLineCountAux rest true

/-- Number of lines Python's file iteration yields for this file content. -/
def count_physical_loc_file (content : String) : Nat :=
  pyLineCountAux content.data false

/-! ## Module keys (assignment_1.py, `main`) -/

/-- `str(p)` for the relative `Path` with the given parts: `pathlib`
renders the empty relative path as `"."`, otherwise joins with `/`. -/
def relPathStr (parts : List String) : String :=
  if parts = [] then "." else String.intercalate "/" parts

/-- `module_name = str(file_path.parent.relative_to(repo))` followed by
`if module_name == '': module_name = 'root'`; `parts` are the components
of the file's parent directory relative to the scanned root. -/
def moduleKeyOf (parts : List String) : String :=
  let m := relPathStr parts
  if m = "" then "root" else m

example : count_physical_loc_file "a\nb" = 2 := by decide
example : count_physical_loc_file "aa" = 1 := rfl
example : moduleKeyOf [] = "." := by decide
example : pstrip "  x ;\n".data = "x ;".data := by decide

/-! ## Regex scanners for the call-graph builder (assignment_1.py)

All character classes appearing consecutively in the regexes below are
disjoint (`\w`-like classes vs `\s` vs the literal `(`), so a backtracking
regex engine can never succeed with a shorter repetition than the maximal
one: maximal-munch scanning is an exact translation. -/

theorem length_dropWhile_le (p : Char → Bool) (l : List Char) :
    (l.dropWhile p).length ≤ l.length := by
  induction l with
  | nil => simp [List.dropWhile]
  | cons c rest ih =>
    rw [List.dropWhile_cons]
    by_cases h : p c
    · simp only [h, if_true]
      exact le_trans ih (Nat.le_succ _)
    · simp [h]

/-- The extension tuple of the C-like family branches in assignment_1.py. -/
def cExts : List String := [".c", ".cpp", ".java", ".js", ".ts", ".hpp", ".cc"]

/-- Regex class `[A-Za-z_]` (start of an identifier). -/
def isIdentStart (c : Char) : Bool := c.isAlpha || c = '_'

/-- Regex class `[A-Za-z0-9_:<>]` (tail of the C first capture group). -/
def isClass1Char (c : Char) : Bool := isWordChar c || c = ':' || c = '<' || c = '>'

/-- Match of `def\s+(\w+)\s*\(` anchored at the head of the list,
returning the capture group. -/
def pyDefAt : List Char → Option (List Char)
  | 'd' :: 'e' :: 'f' :: rest =>
    let sp := rest.takeWhile isPySpace
    let r1 := rest.dropWhile isPySpace
    let w := r1.takeWhile isWordChar
    let r2 := r1.dropWhile isWordChar
    if sp.isEmpty || w.isEmpty then none
    else
      match r2.dropWhile isPySpace with
      | '(' :: _ => some w
      | _ => none
  | _ => none

/-- `re.findall(r"def\s+(\w+)\s*\(", s)[0]`: capture group of the leftmost
match (the pattern has no `\b`, so every start offset is tried). -/
def findPyDef : List Char → Option (List Char)
  | [] => none
  | c :: rest =>
    match pyDefAt (c :: rest) with
    | some w => some w
    | none => findPyDef rest

/-- Match of `([A-Za-z_][A-Za-z0-9_:<>]*)\s+([A-Za-z_][A-Za-z0-9_]*)\s*\(`
anchored at the head of the list, returning the second capture group. -/
def cDefAt : List Char → Option (List Char)
  | c :: rest =>
    if isIdentStart c then
      let r1 := rest.dropWhile isClass1Char
      let sp := r1.takeWhile isPySpace
      let r2 := r1.dropWhile isPySpace
      if sp.isEmpty then none
      else
        match r2 with
        | d :: rest2 =>
          if isIdentStart d then
            let r3 := (rest2.dropWhile isWordChar).dropWhile isPySpace
            match r3 with
            | '(' :: _ => some (d :: rest2.takeWhile isWordChar)
            | _ => none
          else none
        | [] => none
    else none
  | [] => none

/-- `re.findall(FUNC_DEF_RE_C, s)[0][1]`: second capture group of the
leftmost match.  `prevIsWord` realizes the `\b` anchor: the previous
character must not be a `\w` character. -/
def findCDef (prevIsWord : Bool) : List Char → Option (List Char)
  | [] => none
  | c :: rest =>
    match (if prevIsWord then none else cDefAt (c :: rest)) with
    | some w => some w
    | none => findCDef (isWordChar c) rest

/-- Match of `([A-Za-z_][A-Za-z0-9_]*)\s*\(` anchored at the head,
returning the capture group and the rest of the input after the `(`. -/
def pyCallAt : List Char → Option (List Char × List Char)
  | c :: rest =>
    if isIdentStart c then
      let r1 := (rest.dropWhile isWordChar).dropWhile isPySpace
      match r1 with
      | '(' :: after => some (c :: rest.takeWhile isWordChar, after)
      | _ => none
    else none
  | [] => none

/-- `FUNC_CALL_RE_PY.finditer(s)`: capture groups of all non-overlapping
matches of `\b([A-Za-z_][A-Za-z0-9_]*)\s*\(`.  After a match the scan
resumes after the consumed `(`, which is not a word character, so the
boundary flag restarts as `false`.  The `fuel` argument only makes the
recursion structural: every step consumes at least one character, so a
fuel of the input length (as passed by `pyCallScan`) is never exhausted. -/
def pyCallScanF : Nat → Bool → List Char → List (List Char)
  | 0, _, _ => []
  | _ + 1, _, [] => []
  | fuel + 1, prevIsWord, c :: rest =>
    match (if prevIsWord then none else pyCallAt (c :: rest)) with
    | some (name, after) => name :: pyCallScanF fuel false after
    | none => pyCallScanF fuel (isWordChar c) rest

def pyCallScan (l : List Char) : List (List Char) :=
  pyCallScanF l.length false l

/-- Match of `([A-Za-z_][A-Za-z0-9_:<>]*)\s*\(` anchored at the head (the
C-family call regex), returning capture group and rest after the `(`. -/
def cCallAt : List Char → Option (List Char × List Char)
  | c :: rest =>
    if isIdentStart c then
      let r1 := (rest.dropWhile isClass1Char).dropWhile isPySpace
      match r1 with
      | '(' :: after => some (c :: rest.takeWhile isClass1Char, after)
      | _ => none
    else none
  | [] => none

/-- `FUNC_CALL_RE_C.finditer(s)`: capture groups of all non-overlapping
matches, with the same fuel discipline as `pyCallScanF`. -/
def cCallScanF : Nat → Bool → List Char → List (List Char)
  | 0, _, _ => []
  | _ + 1, _, [] => []
  | fuel + 1, prevIsWord, c :: rest =>
    match (if prevIsWord then none else cCallAt (c :: rest)) with
    | some (name, after) => name :: cCallScanF fuel false after
    | none => cCallScanF fuel (isWordChar c) rest

def cCallScan (l : List Char) : List (List Char) :=
  cCallScanF l.length false l

example : findPyDef "def a(): b()".data = some "a".data := by decide
example : findCDef false "int main() ".data = some "main".data := by decide
example : findCDef false "foo();".data = none := by decide
example : pyCallScan "b() + cc(1)".data = ["b".data, "cc".data] := by decide

/-! ## `build_callgraph` and `compute_fan_in_out` (assignment_1.py) -/

/-- One source file: `ext` is `Path(fpath).suffix.lower()`, `lines` the
lines produced by `f.readlines()` (trailing newlines are immaterial, every
line is `strip()`ped before use). -/
structure SrcFile where
  ext : String
  lines : List String

/-- `defaultdict(set)` keyed by function name, values in insertion order:
the association list mirrors the dict, each value list mirrors its set
(`cgAdd` refuses duplicates, like `set.add`). -/
abbrev CallGraph := List (String × List String)

/-- `callgraph[caller].add(callee)`. -/
def cgAdd (g : CallGraph) (caller callee : String) : CallGraph :=
  match g with
  | [] => [(caller, [callee])]
  | (k, cs) :: t =>
    if k = caller then (k, if cs.contains callee then cs else cs ++ [callee]) :: t
    else (k, cs) :: cgAdd t caller callee

/-- The body of `build_callgraph`'s `for line in lines` loop.  State:
(callgraph so far, `current_func`).  Note that the `elif ext in (...)`
branch fires for every line of a C-like file, whether or not the
definition regex matched, and then `continue`s, exactly as the source. -/
def cgStep (ext : String) (st : CallGraph × Option String) (line : String) :
    CallGraph × Option String :=
  let s := pstrip line.data
  if ext = ".py" && "def ".data.isPrefixOf s then
    (st.1, (findPyDef s).map String.mk)
  else if cExts.contains ext then
    (st.1, (findCDef false s).map String.mk)
  else
    match st.2 with
    | some cur =>
      let calls := if ext = ".py" then pyCallScan s else cCallScan s
      (calls.foldl (fun g c => cgAdd g cur (String.mk c)) st.1, some cur)
    | none => st

def build_callgraph (files : List SrcFile) : CallGraph :=
  files.foldl (fun g f => (f.lines.foldl (cgStep f.ext) (g, none)).1) []

/-- Lookup in an association list (Python `dict` access / `in` test). -/
def alookup {β : Type} : List (String × β) → String → Option β
  | [], _ => none
  | (k, v) :: t, f => if k = f then some v else alookup t f

/-- `if callee in fan_in: fan_in[callee] += 1 else: fan_in[callee] = 1`. -/
def fiBump : List (String × Nat) → String → List (String × Nat)
  | [], c => [(c, 1)]
  | (k, n) :: t, c => if k = c then (k, n + 1) :: t else (k, n) :: fiBump t c

/-- The `fan_in` dict of `compute_fan_in_out`: every graph key starts at 0,
then every distinct callee of every caller is bumped (or inserted at 1). -/
def fanInMap (g : CallGraph) : List (String × Nat) :=
  g.foldl (fun m e => e.2.dedup.foldl fiBump m) (g.map fun e => (e.1, 0))

/-- The `fan_out` dict: `{f: len(set(callees))}`. -/
def fanOutMap (g : CallGraph) : List (String × Nat) :=
  g.map fun e => (e.1, e.2.dedup.length)

/-- C-like file of claim C1: a function definition line followed by a body
line containing a call. -/
def c1File : SrcFile := ⟨".c", ["int main()", "  foo();"]⟩

/-- Python-like file of claim C2, exactly as stated in Scenario B. -/
def c2File : SrcFile := ⟨".py", ["def a(): b()", "def c(): a()"]⟩

/-- Python-like variant of Scenario B with each call on its own line. -/
def c2File' : SrcFile := ⟨".py", ["def a():", "    b()", "def c():", "    a()"]⟩

/-- C1: the claim says the edge `main → foo` is recorded for a C-like file;
the code's `elif` branch consumes every line of a C-like file (resetting
`current_func` when the line is not a definition) and `continue`s before
the call-scanning code, so the call graph of a C-like file is always
empty — on the claim's own example no edge at all is produced. -/
theorem c1_clike_callgraph_empty :
    build_callgraph [c1File] = [] ∧ alookup (build_callgraph [c1File]) "main" = none := by
  constructor <;> rfl

/-- C2 counterexample: on the file of Scenario B both calls sit on
function-definition lines, which are consumed solely as boundary markers,
so `build_callgraph` returns the empty graph, not `{a: {b}, c: {a}}`, and
`fan_out(a)` does not exist (in particular it is not 1). -/
theorem c2_scenario_b_empty :
    build_callgraph [c2File] = []
    ∧ alookup (fanOutMap (build_callgraph [c2File])) "a" = none := by
  constructor <;> rfl

/-- C2 amended: with each call on its own line the graph and the fan-in /
fan-out values claimed in Scenario B all appear. -/
theorem c2_scenario_b_per_line :
    build_callgraph [c2File'] = [("a", ["b"]), ("c", ["a"])]
    ∧ alookup (fanOutMap (build_callgraph [c2File'])) "a" = some 1
    ∧ alookup (fanOutMap (build_callgraph [c2File'])) "c" = some 1
    ∧ alookup (fanInMap (build_callgraph [c2File'])) "a" = some 1
    ∧ alookup (fanInMap (build_callgraph [c2File'])) "b" = some 1
    ∧ alookup (fanInMap (build_callgraph [c2File'])) "c" = some 0 := by
  refine ⟨rfl, rfl, rfl, rfl, rfl, rfl⟩

/-! ## Characterization of `compute_fan_in_out` (claim C5) -/

theorem alookup_fiBump_self (m : List (String × Nat)) (c : String) :
    alookup (fiBump m c) c = some ((alookup m c).getD 0 + 1) := by
  induction m with
  | nil => simp [fiBump, alookup]
  | cons e t ih =>
    obtain ⟨k, n⟩ := e
    by_cases h : k = c
    · subst h
      simp [fiBump, alookup]
    · simp [fiBump, alookup, h, ih]

theorem alookup_fiBump_ne (m : List (String × Nat)) {f c : String} (h : f ≠ c) :
    alookup (fiBump m c) f = alookup m f := by
  have hcf : ¬ (c = f) := fun e => h e.symm
  induction m with
  | nil =>
    simp only [fiBump, alookup]
    rw [if_neg hcf]
  | cons e t ih =>
    obtain ⟨k, n⟩ := e
    by_cases hk : k = c
    · subst hk
      have hkf : ¬ (k = f) := fun e => h e.symm
      simp [fiBump, alookup, hkf]
    · simp [fiBump, alookup, hk, ih]

theorem alookup_foldl_fiBump_not_mem (l : List String) (m : List (String × Nat))
    (f : String) (h : f ∉ l) :
    alookup (l.foldl fiBump m) f = alookup m f := by
  induction l generalizing m with
  | nil => rfl
  | cons c t ih =>
    simp only [List.mem_cons, not_or] at h
    simp only [List.foldl_cons]
    rw [ih _ h.2, alookup_fiBump_ne m h.1]

theorem alookup_foldl_fiBump_mem (l : List String) (m : List (String × Nat))
    (f : String) (hn : l.Nodup) (h : f ∈ l) :
    alookup (l.foldl fiBump m) f = some ((alookup m f).getD 0 + 1) := by
  induction l generalizing m with
  | nil => cases h
  | cons c t ih =>
    obtain ⟨hct, hnt⟩ := List.nodup_cons.mp hn
    simp only [List.foldl_cons]
    rcases List.mem_cons.mp h with rfl | hft
    · rw [alookup_foldl_fiBump_not_mem t _ f hct]
      exact alookup_fiBump_self m f
    · have hfc : f ≠ c := fun e => hct (e ▸ hft)
      rw [ih _ hnt hft, alookup_fiBump_ne m hfc]

theorem alookup_fanin_fold (es : List (String × List String)) :
    ∀ (m : List (String × Nat)) (f : String),
    alookup (es.foldl (fun m e => e.2.dedup.foldl fiBump m) m) f =
      if alookup m f = none ∧ es.countP (fun e => decide (f ∈ e.2)) = 0 then none
      else some ((alookup m f).getD 0 + es.countP (fun e => decide (f ∈ e.2))) := by
  induction es with
  | nil =>
    intro m f
    simp only [List.foldl_nil, List.countP_nil]
    cases hm : alookup m f <;> simp
  | cons e t ih =>
    intro m f
    simp only [List.foldl_cons, List.countP_cons]
    rw [ih]
    by_cases hf : f ∈ e.2
    · have hd : f ∈ e.2.dedup := List.mem_dedup.mpr hf
      rw [alookup_foldl_fiBump_mem _ _ _ (List.nodup_dedup _) hd]
      have h1 : (if decide (f ∈ e.2) = true then 1 else 0) = 1 := by simp [hf]
      rw [h1]
      rcases hm : alookup m f with _ | n <;> split_ifs <;> simp_all <;> omega
    · have hd : f ∉ e.2.dedup := fun hx => hf (List.mem_dedup.mp hx)
      rw [alookup_foldl_fiBump_not_mem _ _ _ hd]
      have h0 : (if decide (f ∈ e.2) = true then 1 else 0) = 0 := by simp [hf]
      rw [h0, Nat.add_zero]

theorem alookup_map_snd {γ : Type} (g : CallGraph) (h : List String → γ) (f : String) :
    alookup (g.map fun e => (e.1, h e.2)) f = (alookup g f).map h := by
  induction g with
  | nil => rfl
  | cons e t ih =>
    obtain ⟨k, cs⟩ := e
    by_cases hk : k = f <;> simp [alookup, hk, ih]

/-- The key list of the callgraph dict. -/
def keysOf (g : CallGraph) : List String := g.map fun e => e.1

theorem alookup_eq_none_iff (g : CallGraph) (f : String) :
    alookup g f = none ↔ f ∉ keysOf g := by
  induction g with
  | nil => simp [alookup, keysOf]
  | cons e t ih =>
    obtain ⟨k, cs⟩ := e
    have hkeys : keysOf ((k, cs) :: t) = k :: keysOf t := rfl
    rw [hkeys]
    by_cases hk : k = f
    · subst hk
      simp [alookup]
    · rw [show alookup ((k, cs) :: t) f = alookup t f from by simp [alookup, hk], ih]
      constructor
      · intro h hmem
        rcases List.mem_cons.mp hmem with rfl | hmem2
        · exact hk rfl
        · exact h hmem2
      · intro h hmem
        exact h (List.mem_cons_of_mem _ hmem)

/-- The distinct callers whose callee set contains `f`. -/
def callersOf (g : CallGraph) (f : String) : Finset String :=
  ((g.filter fun e => decide (f ∈ e.2)).map fun e => e.1).toFinset

theorem callersOf_card (g : CallGraph) (f : String) (hnd : (keysOf g).Nodup) :
    (callersOf g f).card = g.countP (fun e => decide (f ∈ e.2)) := by
  have hsub : ((g.filter fun e => decide (f ∈ e.2)).map fun e => e.1).Sublist (keysOf g) :=
    (List.filter_sublist _).map _
  have hnd2 := hnd.sublist hsub
  rw [callersOf, List.toFinset_card_of_nodup hnd2, List.length_map,
    ← List.countP_eq_length_filter]

/-- C5: for every call graph with distinct keys (a dict invariant) and
every name `f` occurring in it as a key or as a callee,
`compute_fan_in_out` assigns `fan_in(f)` = number of distinct callers whose
callee set contains `f`; when `f` is never a key this number is at least 1
(the claimed floor); and `fan_out(f)` is the cardinality of `f`'s callee
set (duplicates collapsed). -/
theorem c5_fan_in_out (g : CallGraph) (hnd : (keysOf g).Nodup) (f : String)
    (hocc : f ∈ keysOf g ∨ ∃ e ∈ g, f ∈ e.2) :
    alookup (fanInMap g) f = some (callersOf g f).card
    ∧ (f ∉ keysOf g → 1 ≤ (callersOf g f).card)
    ∧ (∀ cs, alookup g f = some cs → alookup (fanOutMap g) f = some cs.toFinset.card) := by
  have hcount := callersOf_card g f hnd
  have hfold := alookup_fanin_fold g (g.map fun e => (e.1, 0)) f
  have hinit := alookup_map_snd g (fun _ => (0 : Nat)) f
  have hout : ∀ cs, alookup g f = some cs → alookup (fanOutMap g) f = some cs.toFinset.card := by
    intro cs hcs
    have hmap := alookup_map_snd g (fun cs => cs.dedup.length) f
    rw [fanOutMap, hmap, hcs, List.card_toFinset]
    rfl
  by_cases hk : f ∈ keysOf g
  · obtain ⟨cs, hcs⟩ : ∃ cs, alookup g f = some cs := by
      rcases hx : alookup g f with _ | cs
      · exact absurd ((alookup_eq_none_iff g f).mp hx) (not_not_intro hk)
      · exact ⟨cs, rfl⟩
    have h0 : alookup (g.map fun e => (e.1, (0 : Nat))) f = some 0 := by
      rw [hinit, hcs]
      rfl
    rw [h0, if_neg (fun hc => by simpa using hc.1)] at hfold
    refine ⟨?_, fun hnk => absurd hk hnk, hout⟩
    rw [fanInMap, hfold, hcount]
    simp
  · have hnone : alookup g f = none := (alookup_eq_none_iff g f).mpr hk
    obtain ⟨e, hel, hfe⟩ : ∃ e ∈ g, f ∈ e.2 := hocc.resolve_left hk
    have hpos : 0 < g.countP (fun e => decide (f ∈ e.2)) :=
      List.countP_pos_iff.mpr ⟨e, hel, by simpa using hfe⟩
    have h0 : alookup (g.map fun e => (e.1, (0 : Nat))) f = none := by
      rw [hinit, hnone]
      rfl
    rw [h0, if_neg (fun hc => by omega)] at hfold
    refine ⟨?_, fun _ => by rw [hcount]; omega, hout⟩
    rw [fanInMap, hfold, hcount]
    simp

/-! ## `compute_cyclomatic_complexity` (assignment_1.py, claims C3 and C9) -/

/-- Python `kw in s`: substring containment. -/
def hasSub (pat : List Char) : List Char → Bool
  | [] => pat.isEmpty
  | c :: rest => pat.isPrefixOf (c :: rest) || hasSub pat rest

/-- Success of `re.match(r".*\w+\s+\w+\s*\(.*\)\s*{?", s)` anchored at the
head of the list after the leading `.*`: `\w+`, `\s+`, `\w+`, `\s*`, `(`,
then a later `)` (the final `\s*{?` can always match the empty string).
Stripped lines contain no newline, so `.`-vs-newline is immaterial. -/
def ccDefAt : List Char → Bool
  | c :: rest =>
    isWordChar c &&
      (let r1 := rest.dropWhile isWordChar
       let sp := r1.takeWhile isPySpace
       let r2 := r1.dropWhile isPySpace
       !sp.isEmpty &&
         match r2 with
         | d :: rest2 =>
           isWordChar d &&
             (match (rest2.dropWhile isWordChar).dropWhile isPySpace with
              | '(' :: rest3 => rest3.contains ')'
              | _ => false)
         | [] => false)
  | [] => false

/-- The leading `.*` of the C definition heuristic: the shape may start at
any offset of the line. -/
def ccDefMatch : List Char → Bool
  | [] => false
  | c :: rest => ccDefAt (c :: rest) || ccDefMatch rest

/-- `re.findall(r"(\w+)\s*\(", s)[0]`: capture group of the leftmost match
(no `\b` in this pattern, so every start offset is tried). -/
def ccFirstCallName : List Char → Option (List Char)
  | [] => none
  | c :: rest =>
    if isWordChar c then
      match (rest.dropWhile isWordChar).dropWhile isPySpace with
      | '(' :: _ => some (c :: rest.takeWhile isWordChar)
      | _ => ccFirstCallName rest
    else ccFirstCallName rest

/-- State of `compute_cyclomatic_complexity`'s line loop:
`cc_per_func`, `cc_total`, `func_name`, `cc`. -/
structure CCState where
  map : List (String × Nat)
  total : Nat
  current : Option String
  cc : Nat

/-- Python dict assignment `d[k] = v`: overwrite in place or append. -/
def aupdate (m : List (String × Nat)) (k : String) (v : Nat) : List (String × Nat) :=
  match m with
  | [] => [(k, v)]
  | (k0, v0) :: t => if k0 = k then (k0, v) :: t else (k0, v0) :: aupdate t k v

/-- Detected function start: commit the open function (if any) to the map
and the total, then open the new one with the baseline score 1. -/
def ccOpen (st : CCState) (name : String) : CCState :=
  match st.current with
  | some f => ⟨aupdate st.map f st.cc, st.total + st.cc, some name, 1⟩
  | none => ⟨st.map, st.total, some name, 1⟩

/-- `any(kw in s for kw in ["if", "for", "while", "case", "elif", "else if"])`:
decision-point keywords are found by substring containment. -/
def ccKwHit (s : List Char) : Bool :=
  ["if", "for", "while", "case", "elif", "else if"].any fun kw => hasSub kw.data s

/-- The body of `compute_cyclomatic_complexity`'s `for line in lines` loop:
function-start detection first, then the decision-point counters, which
apply to whichever function is currently open. -/
def ccLine (ext : String) (st : CCState) (line : String) : CCState :=
  let s := pstrip line.data
  let st1 :=
    if cExts.contains ext then
      if ccDefMatch s then
        ccOpen st (match ccFirstCallName s with | some w => String.mk w | none => "anon_func")
      else st
    else if ext = ".py" then
      if "def ".data.isPrefixOf s then
        ccOpen st (match findPyDef s with | some w => String.mk w | none => "anon_func")
      else st
    else st
  let cc1 := st1.cc + (if ccKwHit s then 1 else 0)
  let cc2 := cc1 + (if hasSub "&&".data s || hasSub "||".data s then 1 else 0)
  let cc3 := cc2 + (if ext = ".py" && hasSub "except".data s then 1 else 0)
  ⟨st1.map, st1.total, st1.current, cc3⟩

/-- End of file: the last open function (if any) is committed. -/
def ccFinish (st : CCState) : List (String × Nat) × Nat :=
  match st.current with
  | some f => (aupdate st.map f st.cc, st.total + st.cc)
  | none => (st.map, st.total)

/-- `compute_cyclomatic_complexity`, as a function of the (lowercased) file
extension and the file's lines: per-function map and file total. -/
def compute_cyclomatic_complexity (ext : String) (lines : List String) :
    List (String × Nat) × Nat :=
  ccFinish (lines.foldl (ccLine ext) ⟨[], 0, none, 0⟩)

example : compute_cyclomatic_complexity ".py" ["def f():", "    notify()"] = ([("f", 2)], 2) := rfl
example : compute_cyclomatic_complexity ".c"
    ["int f(int x)", "  if (a) b;", "  if (c && d) e;"] = ([("f", 4)], 4) := rfl

/-- C3 counterexample: a Python-like file with decision-point lines but no
function-definition line yields an empty per-function map and a zero file
total — no implicit whole-file function record exists. -/
theorem c3_functionless_file_empty :
    (compute_cyclomatic_complexity ".py" ["if x:", "    y()"]).1 = []
    ∧ (compute_cyclomatic_complexity ".py" ["if x:", "    y()"]).2 = 0 :=
  ⟨rfl, rfl⟩

/-- No line of the file matches the function-definition heuristic of the
file's language family. -/
def ccNoDef (ext : String) (s : List Char) : Prop :=
  (cExts.contains ext = false ∨ ccDefMatch s = false)
  ∧ (ext ≠ ".py" ∨ "def ".data.isPrefixOf s = false)

instance (ext : String) (s : List Char) : Decidable (ccNoDef ext s) :=
  inferInstanceAs (Decidable (_ ∧ _))

/-- C3 amended: when no line matches the function-definition heuristic,
`compute_cyclomatic_complexity` returns the empty per-function map and
file total 0 (decision points before any definition are accumulated into
a counter that is never committed). -/
theorem c3_no_def_no_record (ext : String) (lines : List String)
    (h : ∀ l ∈ lines, ccNoDef ext (pstrip l.data)) :
    compute_cyclomatic_complexity ext lines = ([], 0) := by
  have key : ∀ (ls : List String) (st : CCState),
      (∀ l ∈ ls, ccNoDef ext (pstrip l.data)) →
      (ls.foldl (ccLine ext) st).current = st.current
      ∧ (ls.foldl (ccLine ext) st).map = st.map
      ∧ (ls.foldl (ccLine ext) st).total = st.total := by
    intro ls
    induction ls with
    | nil => exact fun st _ => ⟨rfl, rfl, rfl⟩
    | cons l t ih =>
      intro st hall
      obtain ⟨hcdef, hpdef⟩ := hall l (List.mem_cons_self _ _)
      have hst1 : (ccLine ext st l).current = st.current
          ∧ (ccLine ext st l).map = st.map ∧ (ccLine ext st l).total = st.total := by
        simp only [ccLine]
        by_cases hce : cExts.contains ext = true
        · have hcd : ccDefMatch (pstrip l.data) = false := by
            rcases hcdef with h | h
            · rw [hce] at h
              cases h
            · exact h
          rw [if_pos hce, if_neg (by simp [hcd])]
          exact ⟨rfl, rfl, rfl⟩
        · rw [if_neg hce]
          by_cases hpy : ext = ".py"
          · have hpd : "def ".data.isPrefixOf (pstrip l.data) = false := by
              rcases hpdef with h | h
              · exact absurd hpy h
              · exact h
            rw [if_pos hpy, if_neg (by simp [hpd])]
            exact ⟨rfl, rfl, rfl⟩
          · rw [if_neg hpy]
            exact ⟨rfl, rfl, rfl⟩
      have ht := ih (ccLine ext st l) (fun l hl => hall l (List.mem_cons_of_mem _ hl))
      simp only [List.foldl_cons]
      exact ⟨ht.1.trans hst1.1, ht.2.1.trans hst1.2.1, ht.2.2.trans hst1.2.2⟩
  obtain ⟨hc, hm, ht⟩ := key lines ⟨[], 0, none, 0⟩ h
  unfold compute_cyclomatic_complexity ccFinish
  rw [hc, hm, ht]

/-- Witness for C3 amended at a concrete definition-free file. -/
theorem c3_no_def_no_record_witness :
    (∀ l ∈ ["x = 1", "if x:"], ccNoDef ".py" (pstrip l.data))
    ∧ compute_cyclomatic_complexity ".py" ["x = 1", "if x:"] = ([], 0) :=
  ⟨by decide, c3_no_def_no_record ".py" ["x = 1", "if x:"] (by decide)⟩

/-- C9: decision-point keywords are matched by substring containment, so a
keyword embedded in a longer identifier still counts: any line containing
"if" anywhere (e.g. inside "notify") fires the keyword clause, and on a
Python-like file `def f():` / `    notify()` the open function `f` ends
with score 2 = 1 (baseline) + 1 (the "if" inside "notify"). -/
theorem c9_substring_keyword_detection :
    (∀ s : List Char, hasSub "if".data s = true → ccKwHit s = true)
    ∧ compute_cyclomatic_complexity ".py" ["def f():", "    notify()"] = ([("f", 2)], 2) := by
  constructor
  · intro s h
    exact List.any_eq_true.mpr ⟨"if", by simp, h⟩
  · rfl

/-- Witness for C9 at the line "notify()". -/
theorem c9_substring_keyword_detection_witness :
    hasSub "if".data "notify()".data = true ∧ ccKwHit "notify()".data = true :=
  ⟨by decide, c9_substring_keyword_detection.1 "notify()".data (by decide)⟩

/-! ## `count_logical_loc_file` and `LANG_EXT` (assignment_1.py, claim C10) -/

/-- The language-tag to extension map of assignment_1.py. -/
def LANG_EXT : List (String × List String) :=
  [("c", [".c", ".h"]),
   ("cpp", [".cpp", ".cc", ".cxx", ".hpp", ".hh", ".hxx"]),
   ("java", [".java"]),
   ("py", [".py"]),
   ("js", [".js", ".jsx"]),
   ("ts", [".ts", ".tsx"])]

/-- `any(kw in s for kw in ['if', 'for', 'while', 'case', 'else'])`. -/
def llKwHit (s : List Char) : Bool :=
  ["if", "for", "while", "case", "else"].any fun kw => hasSub kw.data s

/-- `s.startswith(('def ', 'class ', 'if ', 'for ', 'while ', 'elif ', 'else'))`. -/
def pyStmtKw (s : List Char) : Bool :=
  ["def ", "class ", "if ", "for ", "while ", "elif ", "else"].any fun kw => kw.data.isPrefixOf s

/-- The body of `count_logical_loc_file`'s line loop.  The Python `if`
branch and its `else` both add 1 for a Python-like line; an extension in
neither hardcoded family falls through without touching the counter. -/
def llLine (ext : String) (acc : Nat) (line : String) : Nat :=
  let s := pstrip line.data
  if s.isEmpty || "#".data.isPrefixOf s || "//".data.isPrefixOf s then acc
  else if cExts.contains ext then
    acc + s.count ';' + (if llKwHit s then 1 else 0)
  else if ext = ".py" then
    if pyStmtKw s then acc + 1 else acc + 1
  else acc

/-- `count_logical_loc_file`, as a function of the file's extension
(`Path(path).suffix`, not lowercased) and its lines. -/
def count_logical_loc_file (ext : String) (lines : List String) : Nat :=
  lines.foldl (llLine ext) 0

example : count_logical_loc_file ".c" ["int f()", "  a; b;", "  if (x) c;"] = 4 := rfl
example : count_logical_loc_file ".py" ["def f():", "    return 1", "", "# c"] = 2 := rfl

/-- C10: an extension reachable through `LANG_EXT` that belongs to neither
hardcoded family branch (`.h`, `.cxx`, `.hh`, `.hxx`, `.jsx`, `.tsx`)
contributes 0 per line, so such files always report logical LOC 0. -/
theorem c10_unhandled_ext_zero (ext : String)
    (_hsel : ∃ p ∈ LANG_EXT, ext ∈ p.2)
    (hnc : cExts.contains ext = false) (hnpy : ext ≠ ".py") :
    ∀ lines, count_logical_loc_file ext lines = 0 := by
  have key : ∀ (ls : List String) (acc : Nat), ls.foldl (llLine ext) acc = acc := by
    intro ls
    induction ls with
    | nil => exact fun _ => rfl
    | cons l t ih =>
      intro acc
      have hline : llLine ext acc l = acc := by
        simp only [llLine]
        by_cases hskip : ((pstrip l.data).isEmpty || "#".data.isPrefixOf (pstrip l.data)
            || "//".data.isPrefixOf (pstrip l.data)) = true
        · rw [if_pos hskip]
        · rw [if_neg hskip, if_neg (by simpa using hnc), if_neg hnpy]
      simp only [List.foldl_cons]
      rw [hline, ih]
  exact fun lines => key lines 0

/-- Witness for C10 at `.cxx`, an extension selectable via the `cpp` tag. -/
theorem c10_unhandled_ext_zero_witness :
    (∃ p ∈ LANG_EXT, ".cxx" ∈ p.2)
    ∧ count_logical_loc_file ".cxx" ["int x;", "if (x) y();"] = 0 :=
  ⟨by decide,
    c10_unhandled_ext_zero ".cxx" (by decide) (by decide) (by decide) ["int x;", "if (x) y();"]⟩

/-! ## Physical LOC characterization (claim C7) -/

theorem pyLineCountAux_eq (l : List Char) :
    ∀ p : Bool, pyLineCountAux l p =
      l.count '\n' +
        (if l = [] then (if p then 1 else 0)
         else if l.getLast? = some '\n' then 0 else 1) := by
  induction l with
  | nil => intro p; simp [pyLineCountAux]
  | cons c rest ih =>
    intro p
    rcases rest with _ | ⟨d, t⟩
    · by_cases hc : c = '\n'
      · subst hc
        simp [pyLineCountAux]
      · have hc' : ¬ ('\n' = c) := fun e => hc e.symm
        simp [pyLineCountAux, hc, hc', List.count_cons]
    · have hlast : (c :: d :: t).getLast? = (d :: t).getLast? := List.getLast?_cons_cons
      have hstep : pyLineCountAux (c :: d :: t) p =
          if c = '\n' then 1 + pyLineCountAux (d :: t) false
          else pyLineCountAux (d :: t) true := rfl
      rw [hstep]
      by_cases hc : c = '\n'
      · subst hc
        rw [if_pos rfl, ih false]
        simp [hlast, List.count_cons]
        omega
      · have hc' : ¬ ('\n' = c) := fun e => hc e.symm
        rw [if_neg hc, ih true]
        simp [hlast, hc', List.count_cons]

/-- C7 amended: physical LOC equals the newline count plus one for a final
partial line, and concatenating a file's content with itself doubles the
physical LOC exactly when the content is empty or ends with a newline. -/
theorem c7_physical_loc (s : String) :
    count_physical_loc_file s =
      s.data.count '\n' + (if s.data = [] then 0 else if s.data.getLast? = some '\n' then 0 else 1)
    ∧ (count_physical_loc_file (s ++ s) = 2 * count_physical_loc_file s
        ↔ (s.data = [] ∨ s.data.getLast? = some '\n')) := by
  have hchar : ∀ l : List Char, pyLineCountAux l false =
      l.count '\n' + (if l = [] then 0 else if l.getLast? = some '\n' then 0 else 1) := by
    intro l
    rw [pyLineCountAux_eq l false]
    rcases l with _ | _ <;> simp
  have happ : (s ++ s).data = s.data ++ s.data := String.data_append s s
  constructor
  · exact hchar s.data
  · unfold count_physical_loc_file
    rw [happ, hchar, hchar]
    rcases hl : s.data with _ | ⟨c, t⟩
    · simp
    · have hne : (c :: t) ≠ ([] : List Char) := by simp
      have hlast : ((c :: t) ++ (c :: t)).getLast? = (c :: t).getLast? :=
        List.getLast?_append_of_ne_nil _ hne
      rw [List.count_append, hlast]
      by_cases hn : (c :: t).getLast? = some '\n'
      · simp [hn]
        omega
      · simp [hn]
        omega

/-- C7 counterexample: doubling fails on content without a trailing
newline: `"a"` has 1 line and `"aa"` still has 1 line, not 2. -/
theorem c7_doubling_fails :
    ¬ (count_physical_loc_file ("a" ++ "a") = 2 * count_physical_loc_file "a") := by
  decide

/-- Witness for C7 at a newline-terminated content. -/
theorem c7_physical_loc_witness :
    count_physical_loc_file "x\n" = 1
    ∧ count_physical_loc_file ("x\n" ++ "x\n") = 2 * count_physical_loc_file "x\n" :=
  ⟨by decide, ((c7_physical_loc "x\n").2).mpr (Or.inr (by decide))⟩

/-! ## `compute_halstead` (Module 6/analyze_static.py, claim C6)

The fuel-indexed helpers below only make the recursions structural (hence
kernel-evaluable): every step consumes at least one character, so a fuel
equal to the input length is never exhausted. -/

/-- `re.sub(r'//.*', '', code)`: delete from each `//` to the end of its
line (the newline itself is kept). -/
def stripLineCommentsF : Nat → List Char → List Char
  | 0, _ => []
  | _ + 1, [] => []
  | fuel + 1, '/' :: '/' :: rest => stripLineCommentsF fuel (rest.dropWhile fun c => !(c == '\n'))
  | fuel + 1, c :: rest => c :: stripLineCommentsF fuel rest

def stripLineComments (l : List Char) : List Char := stripLineCommentsF l.length l

/-- Position just after the nearest `*/` (the non-greedy `.*?` of the
block-comment pattern), if any. -/
def afterBlockEnd : List Char → Option (List Char)
  | [] => none
  | '*' :: '/' :: rest => some rest
  | _ :: rest => afterBlockEnd rest

/-- `re.sub(r'/\*.*?\*/', '', code, flags=re.DOTALL)`: each `/*` is
deleted together with everything up to the nearest `*/`; a `/*` with no
closing `*/` does not match and is kept. -/
def stripBlockCommentsF : Nat → List Char → List Char
  | 0, _ => []
  | _ + 1, [] => []
  | fuel + 1, '/' :: '*' :: rest =>
    (match afterBlockEnd rest with
     | some r => stripBlockCommentsF fuel r
     | none => '/' :: '*' :: stripBlockCommentsF fuel rest)
  | fuel + 1, c :: rest => c :: stripBlockCommentsF fuel rest

def stripBlockComments (l : List Char) : List Char := stripBlockCommentsF l.length l

/-- `re.findall(r'\b\w+\b|[^\s\w]', code)`: maximal word runs (the `\b`s
hold exactly at the ends of maximal runs) and single non-space non-word
characters; whitespace separates tokens. -/
def tokenizeF : Nat → List Char → List (List Char)
  | 0, _ => []
  | _ + 1, [] => []
  | fuel + 1, c :: rest =>
    if isWordChar c then
      (c :: rest.takeWhile isWordChar) :: tokenizeF fuel (rest.dropWhile isWordChar)
    else if isPySpace c then tokenizeF fuel rest
    else [c] :: tokenizeF fuel rest

def tokenize (l : List Char) : List (List Char) := tokenizeF l.length l

def JAVA_OPERATORS : List (List Char) :=
  ["=", "+", "-", "*", "/", "%", "++", "--", "==", "!=", ">", "<", ">=", "<=",
   "&&", "||", "!", "+=", "-=", "*=", "/=", "%=", "&", "|", "^", "<<", ">>",
   ">>>", "?", ":", "->", "::"].map String.data

/-- The token stream of `compute_halstead`: comments stripped, then
tokenized. -/
def tokensOf (code : List Char) : List (List Char) :=
  tokenize (stripBlockComments (stripLineComments code))

/-- `[t for t in tokens if t in JAVA_OPERATORS]`. -/
def operatorsOf (code : List Char) : List (List Char) :=
  (tokensOf code).filter fun t => decide (t ∈ JAVA_OPERATORS)

/-- `[t for t in tokens if t not in JAVA_OPERATORS and re.match(r'\w+', t)]`:
a non-operator token starting with a word character. -/
def operandsOf (code : List Char) : List (List Char) :=
  (tokensOf code).filter fun t =>
    decide (t ∉ JAVA_OPERATORS) && (match t with | c :: _ => isWordChar c | [] => false)

/-- `compute_halstead`'s volume: `(N1+N2) * log2(n1+n2)` when
`n1 + n2 > 0`, else 0. -/
noncomputable def halstead_volume (code : List Char) : ℝ :=
  let n1 := (operatorsOf code).dedup.length
  let n2 := (operandsOf code).dedup.length
  let N1 := (operatorsOf code).length
  let N2 := (operandsOf code).length
  if n1 + n2 = 0 then 0 else ((N1 + N2 : Nat) : ℝ) * Real.logb 2 ((n1 + n2 : Nat) : ℝ)

example : tokensOf "x = y1; // c".data = ["x".data, "=".data, "y1".data, ";".data] := rfl
example : tokensOf "a /* b */ ==".data = ["a".data, "=".data, "=".data] := rfl

/-- C6 amended: the Halstead volume is always nonnegative, and it is zero
exactly when the stripped token stream has at most ONE distinct
operator-or-operand (`n1 + n2 ≤ 1`): for `n1 + n2 = 1` the factor
`log2(n1+n2)` vanishes, not just for `n1 + n2 = 0` as claimed. -/
theorem c6_volume_nonneg_zero_iff (code : List Char) :
    0 ≤ halstead_volume code
    ∧ (halstead_volume code = 0
        ↔ (operatorsOf code).dedup.length + (operandsOf code).dedup.length ≤ 1) := by
  have hN1 : (operatorsOf code).dedup.length ≤ (operatorsOf code).length :=
    (List.dedup_sublist _).length_le
  have hN2 : (operandsOf code).dedup.length ≤ (operandsOf code).length :=
    (List.dedup_sublist _).length_le
  simp only [halstead_volume]
  by_cases h0 : (operatorsOf code).dedup.length + (operandsOf code).dedup.length = 0
  · rw [if_pos h0]
    simp [h0]
  · rw [if_neg h0]
    by_cases h1 : (operatorsOf code).dedup.length + (operandsOf code).dedup.length = 1
    · rw [h1]
      rw [Nat.cast_one, Real.logb_one, mul_zero]
      simp [h1]
    · have h2 : 2 ≤ (operatorsOf code).dedup.length + (operandsOf code).dedup.length := by omega
      have hbpos : (0 : ℝ) < Real.logb 2
          (((operatorsOf code).dedup.length + (operandsOf code).dedup.length : Nat) : ℝ) := by
        apply Real.logb_pos (by norm_num)
        exact_mod_cast Nat.lt_of_lt_of_le Nat.one_lt_two h2
      have hTpos : 0 < (operatorsOf code).length + (operandsOf code).length := by omega
      have hvpos : (0 : ℝ) <
          (((operatorsOf code).length + (operandsOf code).length : Nat) : ℝ) *
            Real.logb 2 (((operatorsOf code).dedup.length + (operandsOf code).dedup.length : Nat) : ℝ) :=
        mul_pos (by exact_mod_cast hTpos) hbpos
      exact ⟨le_of_lt hvpos, iff_of_false (ne_of_gt hvpos) (by omega)⟩

/-- C6 counterexample: the one-token file `x` has `n1 + n2 = 1 ≠ 0` yet
volume `1 * log2(1) = 0`, refuting "volume is 0 exactly when
`n1 + n2 = 0`". -/
theorem c6_zero_volume_one_operand :
    halstead_volume "x".data = 0
    ∧ (operatorsOf "x".data).dedup.length + (operandsOf "x".data).dedup.length ≠ 0 := by
  constructor
  · have h1 : (operatorsOf "x".data).dedup.length = 0 := rfl
    have h2 : (operandsOf "x".data).dedup.length = 1 := rfl
    have h3 : (operatorsOf "x".data).length = 0 := rfl
    have h4 : (operandsOf "x".data).length = 1 := rfl
    simp only [halstead_volume, h1, h2, h3, h4]
    norm_num [Real.logb_one]
  · decide

/-! ## Maintainability index (Module 6/analyze_static.py, claim C4) -/

/-- The maintainability-index computation of `analyze_java_file`:
`hal_vol` comes from `compute_halstead`, `cc_avg` and `nloc` from the
external `lizard` analysis (`nloc` defaults to 1 when absent or 0, the
other two default to 1 when not positive), then
`mi = 171 - 5.2*log(abs(hv)+1) - 0.23*cc_val - 16.2*log(abs(nloc)+1)`
clamped by `max(0, min(100, mi))`.  `log` is the natural logarithm. -/
noncomputable def maintainability_index (hal_vol cc_avg : ℝ) (nloc : ℕ) : ℝ :=
  let nl : ℝ := if nloc = 0 then 1 else (nloc : ℝ)
  let hv : ℝ := if hal_vol > 0 then hal_vol else 1
  let cc_val : ℝ := if cc_avg > 0 then cc_avg else 1
  let mi : ℝ := 171 - 5.2 * Real.log (|hv| + 1) - 0.23 * cc_val - 16.2 * Real.log (|nl| + 1)
  max 0 (min 100 mi)

/-- The maintainability index exactly as the claim words it: volume and
logical size floored at 1 before taking the logarithm, then clamped. -/
noncomputable def mi_claimed (volume cc_avg size : ℝ) : ℝ :=
  max 0 (min 100
    (171 - 5.2 * Real.log (max volume 1) - 0.23 * cc_avg - 16.2 * Real.log (max size 1)))

theorem log150_bounds : 7 * Real.log 2 < Real.log 150 ∧ Real.log 150 < 8 * Real.log 2 := by
  constructor
  · have h : Real.log 128 < Real.log 150 := Real.log_lt_log (by norm_num) (by norm_num)
    have h2 : Real.log 128 = 7 * Real.log 2 := by
      rw [show (128 : ℝ) = 2 ^ (7 : ℕ) by norm_num, Real.log_pow]
      norm_num
    linarith
  · have h : Real.log 150 < Real.log 256 := Real.log_lt_log (by norm_num) (by norm_num)
    have h2 : Real.log 256 = 8 * Real.log 2 := by
      rw [show (256 : ℝ) = 2 ^ (8 : ℕ) by norm_num, Real.log_pow]
      norm_num
    linarith

theorem log151_bounds : 7 * Real.log 2 < Real.log 151 ∧ Real.log 151 < 8 * Real.log 2 := by
  constructor
  · have h : Real.log 128 < Real.log 151 := Real.log_lt_log (by norm_num) (by norm_num)
    have h2 : Real.log 128 = 7 * Real.log 2 := by
      rw [show (128 : ℝ) = 2 ^ (7 : ℕ) by norm_num, Real.log_pow]
      norm_num
    linarith
  · have h : Real.log 151 < Real.log 256 := Real.log_lt_log (by norm_num) (by norm_num)
    have h2 : Real.log 256 = 8 * Real.log 2 := by
      rw [show (256 : ℝ) = 2 ^ (8 : ℕ) by norm_num, Real.log_pow]
      norm_num
    linarith

/-- C4 counterexample: at volume 1, average complexity 1 and size 150 the
code computes `171 - 5.2*ln(2) - 0.23 - 16.2*ln(151)` (the `+1` inside
both logarithms) while the claimed formula gives
`171 - 0.23 - 16.2*ln(150)`; both land strictly between 0 and 100, so the
clamp keeps them distinct. -/
theorem c4_mi_formula_differs : maintainability_index 1 1 150 ≠ mi_claimed 1 1 150 := by
  have hl2a := Real.log_two_gt_d9
  have hl2b := Real.log_two_lt_d9
  obtain ⟨h150a, h150b⟩ := log150_bounds
  obtain ⟨h151a, h151b⟩ := log151_bounds
  have hmono : Real.log 150 < Real.log 151 := Real.log_lt_log (by norm_num) (by norm_num)
  have hcode : maintainability_index 1 1 150 =
      max 0 (min 100 (171 - 5.2 * Real.log 2 - 0.23 - 16.2 * Real.log 151)) := by
    simp only [maintainability_index]
    norm_num
  have hspec : mi_claimed 1 1 150 =
      max 0 (min 100 (171 - 0.23 - 16.2 * Real.log 150)) := by
    simp only [mi_claimed]
    rw [max_self, Real.log_one, max_eq_left (by norm_num : (1 : ℝ) ≤ 150)]
    norm_num
  have hcode2 : maintainability_index 1 1 150 =
      171 - 5.2 * Real.log 2 - 0.23 - 16.2 * Real.log 151 := by
    rw [hcode, min_eq_right (by linarith), max_eq_right (by linarith)]
  have hspec2 : mi_claimed 1 1 150 = 171 - 0.23 - 16.2 * Real.log 150 := by
    rw [hspec, min_eq_right (by linarith), max_eq_right (by linarith)]
  rw [hcode2, hspec2]
  intro heq
  linarith

/-- C4 amended: the computed index always lies in `[0, 100]`, and for the
values actually produced (positive volume and complexity, nonzero size)
it equals `clamp(171 - 5.2*ln(volume+1) - 0.23*cc_avg - 16.2*ln(size+1))`:
the floors of the claim are really `+1` shifts inside the logarithms. -/
theorem c4_mi_bounds_and_formula (hv cc : ℝ) (n : ℕ)
    (hhv : 0 < hv) (hcc : 0 < cc) (hn : n ≠ 0) :
    0 ≤ maintainability_index hv cc n ∧ maintainability_index hv cc n ≤ 100
    ∧ maintainability_index hv cc n =
        max 0 (min 100
          (171 - 5.2 * Real.log (hv + 1) - 0.23 * cc - 16.2 * Real.log ((n : ℝ) + 1))) := by
  have heq : maintainability_index hv cc n =
      max 0 (min 100
        (171 - 5.2 * Real.log (hv + 1) - 0.23 * cc - 16.2 * Real.log ((n : ℝ) + 1))) := by
    simp only [maintainability_index]
    rw [if_neg hn, if_pos hhv, if_pos hcc, abs_of_pos hhv,
      abs_of_nonneg (Nat.cast_nonneg n)]
  refine ⟨?_, ?_, heq⟩
  · rw [heq]
    exact le_max_left _ _
  · rw [heq]
    exact max_le (by norm_num) (min_le_left _ _)

/-- Witness for C4 amended at volume 1, complexity 1, size 150. -/
theorem c4_mi_bounds_and_formula_witness :
    (0 : ℝ) < 1 ∧ (150 : ℕ) ≠ 0
    ∧ (0 ≤ maintainability_index 1 1 150 ∧ maintainability_index 1 1 150 ≤ 100
       ∧ maintainability_index 1 1 150 =
           max 0 (min 100
             (171 - 5.2 * Real.log (1 + 1) - 0.23 * 1 - 16.2 * Real.log (((150 : ℕ) : ℝ) + 1)))) :=
  ⟨by norm_num, by norm_num,
    c4_mi_bounds_and_formula 1 1 150 (by norm_num) (by norm_num) (by norm_num)⟩

/-! ## Module keys (claim C8) -/

/-- C8: a file directly in the scanned root is keyed "." — the string
rendering of the empty relative path — not the claimed sentinel "root":
`str(p)` of a relative `pathlib` path is never `''`, so the `== ''` guard
is dead; deeper files are keyed by the joined relative path as claimed. -/
theorem c8_root_module_key :
    moduleKeyOf [] = "." ∧ moduleKeyOf [] ≠ "root"
    ∧ moduleKeyOf ["src", "core"] = "src/core" := by
  refine ⟨rfl, by decide, rfl⟩

/-- Concrete graph for the C5 witness: `b` occurs only as a callee, with a
duplicate call site. -/
def c5Graph : CallGraph := [("a", ["b", "b"]), ("c", ["a"])]

theorem c5_fan_in_out_witness :
    (keysOf c5Graph).Nodup ∧ alookup (fanInMap c5Graph) "b" = some 1 :=
  ⟨by decide,
    ((c5_fan_in_out c5Graph (by decide) "b"
      (Or.inr ⟨("a", ["b", "b"]), by decide, by decide⟩)).1).trans (by decide)⟩
